import Mathlib

/-!
# Verification of the CloudCalculator hourly VM-activity aggregator

Shallow embedding of `cloudcalculator.py`.  Timestamps are modelled as
natural numbers counting minutes from the start of the analysed month
(one hour = 60 minutes); billable-core counts are modelled as rationals
(the source stores them in a `defaultdict(float)` and coerces each record
value with Python's `int(...)`, which truncates toward zero).
-/

/-- One input row of the activity table (`hostName`, `startTime`, `endTime`,
`hostBillableCores` columns of the loaded dataframe). -/
structure ActivityRecord where
  hostName : String
  startTime : Nat
  endTime : Nat
  hostBillableCores : Rat
  deriving DecidableEq, Repr

/-- Python's `int(...)` applied to a numeric value: truncation toward zero.
`Int.tdiv` is T-division, which truncates toward zero (the denominator of a
`Rat` is positive). -/
def pyInt (q : Rat) : Int :=
  q.num.tdiv q.den

/-- The body of the while loop
`while current_hour < month_end: append; current_hour += 1h`
(lines 50–53), with an explicit fuel argument for structural recursion;
`e - c` units of fuel always suffice because each iteration moves the
cursor by 60 ≥ 1. -/
def monthHoursGo (e : Nat) : Nat → Nat → List Nat
  | _, 0 => []
  | c, fuel + 1 => if c < e then c :: monthHoursGo e (c + 60) fuel else []

/-- `month_hours`: all hour-bucket start times generated by the while loop,
starting at `c = month_start` and stopping as soon as the cursor reaches
`e = month_end`. -/
def monthHours (c e : Nat) : List Nat :=
  monthHoursGo e c (e - c)

/-- `df['startTime'].min()` (line 44): minimum of the `startTime` column;
the value is irrelevant for an empty table because no hour is generated. -/
def minStartList : List ActivityRecord → Nat
  | [] => 0
  | r :: rs => (rs.map (fun s => s.startTime)).foldl min r.startTime

/-- `df['endTime'].max()` (line 45): maximum of the `endTime` column. -/
def maxEndList : List ActivityRecord → Nat
  | [] => 0
  | r :: rs => (rs.map (fun s => s.endTime)).foldl max r.endTime

/-- Lines 65–68: the records active during the hour starting at `hourStart`,
i.e. those with `startTime < hour_end` and `endTime > hour_start`. -/
def activeRecordsFor (hourStart : Nat) (records : List ActivityRecord) : List ActivityRecord :=
  records.filter (fun r => r.startTime < hourStart + 60 && hourStart < r.endTime)

/-- Worker for `drop_duplicates(subset=['hostName'])` (line 71): keep a row
iff its hostname has not been seen earlier, preserving row order. -/
def dedupGo : List String → List ActivityRecord → List ActivityRecord
  | _, [] => []
  | seen, r :: rs =>
    if r.hostName ∈ seen then dedupGo seen rs
    else r :: dedupGo (r.hostName :: seen) rs

/-- `active_records.drop_duplicates(subset=['hostName'])` (line 71): keep the
first-encountered row of each hostname. -/
def dedupByHost (l : List ActivityRecord) : List ActivityRecord :=
  dedupGo [] l

/-- `activehosts[hostname] += v` on a `defaultdict(float)` (line 78): update
the existing key in place (Python dicts preserve insertion order) or insert
it at the end with initial value `0 + v = v`. -/
def dictAdd : List (String × Rat) → String → Rat → List (String × Rat)
  | [], h, c => [(h, c)]
  | (k, v) :: rest, h, c =>
    if k = h then (k, v + c) :: rest else (k, v) :: dictAdd rest h c

/-- Lines 74–78: fold the (already deduplicated) active records into the
`activehosts` dict, adding `int(record['hostBillableCores'])` for each. -/
def buildHosts (l : List ActivityRecord) : List (String × Rat) :=
  l.foldl (fun m r => dictAdd m r.hostName ((pyInt r.hostBillableCores : Int) : Rat)) []

/-- One element of the `results` list (lines 81–96).  The `hour` column is
represented by the underlying bucket-start timestamp (the source renders it
with `strftime('%Y-%m-%d %H:00:00 UTC')`). -/
structure HourResult where
  hour : Nat
  day_of_month : Nat
  hour_of_day : Nat
  total_hostnames : Nat
  total_hostBillableCores : Int
  hostnames : List (String × Rat)
  deriving DecidableEq, Repr

/-- The loop body for one `hour_start` (lines 61–97): filter the active
records, deduplicate by hostname, accumulate cores per hostname, and build
the result entry.  `day_of_month` and `hour_of_day` are `hour_start.day`
and `hour_start.hour` for a timestamp counted in minutes from the start of
the month. -/
def hourResultFor (records : List ActivityRecord) (hourStart : Nat) : HourResult :=
  let activehosts := buildHosts (dedupByHost (activeRecordsFor hourStart records))
  { hour := hourStart
    day_of_month := hourStart / 1440 + 1
    hour_of_day := hourStart / 60 % 24
    total_hostnames := activehosts.length
    total_hostBillableCores := pyInt ((activehosts.map Prod.snd).sum)
    hostnames := activehosts }

/-- The analysis core of `analyze_vm_activity` (lines 43–97): derive the
window from the records, enumerate the hour buckets, and map the per-hour
aggregation over them.  For an empty table pandas produces `NaT` bounds and
the `<` comparison is false, so no hour is generated; here
`monthHours 0 0 = []` gives the same empty result. -/
def analyze (records : List ActivityRecord) : List HourResult :=
  (monthHours (minStartList records) (maxEndList records)).map (hourResultFor records)

/-- One row of the detailed CSV (lines 125–140). -/
structure DetailedRow where
  hour : Nat
  day_of_month : Nat
  hour_of_day : Nat
  hostname : String
  hostBillableCores : Rat
  deriving DecidableEq, Repr

/-- One row of the summary CSV (lines 108–122). -/
structure SummaryRow where
  hour : Nat
  day_of_month : Nat
  hour_of_day : Nat
  total_hosts : Nat
  total_hostBillableCores : Int
  deriving DecidableEq, Repr

/-- `save_detailed_csv` row construction (lines 127–136): one row per
(hour, hostname-detail) pair, copying the hour fields and the per-host
entry. -/
def detailedRows (results : List HourResult) : List DetailedRow :=
  results.flatMap (fun hd =>
    hd.hostnames.map (fun p =>
      { hour := hd.hour
        day_of_month := hd.day_of_month
        hour_of_day := hd.hour_of_day
        hostname := p.1
        hostBillableCores := p.2 }))

/-- `save_summary_csv` row construction (lines 110–118): one row per hour. -/
def summaryRows (results : List HourResult) : List SummaryRow :=
  results.map (fun hd =>
    { hour := hd.hour
      day_of_month := hd.day_of_month
      hour_of_day := hd.hour_of_day
      total_hosts := hd.total_hostnames
      total_hostBillableCores := hd.total_hostBillableCores })

/-- The outcomes of the three `pd.read_csv` attempts (tab, space, comma
separators, lines 26–32): `some records` if that parse succeeds, `none` if
it raises. -/
structure ParseAttempts where
  tabParse : Option (List ActivityRecord)
  spaceParse : Option (List ActivityRecord)
  commaParse : Option (List ActivityRecord)
  deriving DecidableEq, Repr

/-- The nested try/except ladder of lines 26–32: tab first, then space,
then comma; first success wins. -/
def readDataset (a : ParseAttempts) : Option (List ActivityRecord) :=
  match a.tabParse with
  | some df => some df
  | none =>
    match a.spaceParse with
    | some df => some df
    | none => a.commaParse

/-- Observable outcome of one run of `analyze_vm_activity`:
whether the `Error reading file` message was printed, the returned results
list, and the contents of the two output files (`none` = file not written). -/
structure RunOutput where
  errorPrinted : Bool
  results : List HourResult
  detailedFile : Option (List DetailedRow)
  summaryFile : Option (List SummaryRow)
  deriving DecidableEq, Repr

/-- The whole of `analyze_vm_activity` (lines 13–105) as a function of the
parse outcomes.  The `Except.error` branch would model an uncaught fatal
exception aborting the run; the source catches every load failure at lines
33–35, prints the message and returns `[]` before either output file is
written, so this translation never produces `Except.error`. -/
def analyzeVmActivity (a : ParseAttempts) : Except String RunOutput :=
  match readDataset a with
  | none =>
    Except.ok { errorPrinted := true, results := [], detailedFile := none, summaryFile := none }
  | some records =>
    let results := analyze records
    Except.ok
      { errorPrinted := false
        results := results
        detailedFile := some (detailedRows results)
        summaryFile := some (summaryRows results) }

example : analyze [] = [] := rfl

/-- The while loop of lines 50–53 enumerates exactly
`c, c+60, c+120, …`, one start for each `k < ⌈(e - c)/60⌉`, as long as it
is given at least `e - c` units of fuel. -/
theorem monthHoursGo_spec (e : Nat) :
    ∀ (fuel c : Nat), e - c ≤ fuel →
      monthHoursGo e c fuel = (List.range ((e - c + 59) / 60)).map (fun k => c + 60 * k) := by
  intro fuel
  induction fuel with
  | zero =>
    intro c hc
    have h0 : (e - c + 59) / 60 = 0 := by omega
    simp [monthHoursGo, h0]
  | succ n ih =>
    intro c hc
    by_cases h : c < e
    · have hfuel : e - (c + 60) ≤ n := by omega
      have hq : (e - c + 59) / 60 = (e - (c + 60) + 59) / 60 + 1 := by omega
      have hfun : (fun k => c + 60 * (k + 1)) = (fun k => c + 60 + 60 * k) := by
        funext k; ring
      rw [monthHoursGo, if_pos h, ih (c + 60) hfuel, hq, List.range_succ_eq_map]
      simp only [List.map_cons, List.map_map, Function.comp_def, Nat.mul_zero, Nat.add_zero]
      rw [hfun]
    · have h0 : (e - c + 59) / 60 = 0 := by omega
      simp [monthHoursGo, h, h0]

/-- Closed form of the bucket-start list: starts at `month_start` and
advances by exactly one hour, with `⌈(e - c)/60⌉` buckets in total. -/
theorem monthHours_eq_range (c e : Nat) :
    monthHours c e = (List.range ((e - c + 59) / 60)).map (fun k => c + 60 * k) :=
  monthHoursGo_spec e (e - c) c (Nat.le_refl _)

/-- Membership in the bucket-start list. -/
theorem mem_monthHours {c e s : Nat} :
    s ∈ monthHours c e ↔ ∃ k, k < (e - c + 59) / 60 ∧ s = c + 60 * k := by
  rw [monthHours_eq_range]
  simp only [List.mem_map, List.mem_range]
  constructor
  · rintro ⟨k, hk, rfl⟩; exact ⟨k, hk, rfl⟩
  · rintro ⟨k, hk, rfl⟩; exact ⟨k, hk, rfl⟩

/-- Every generated bucket start lies in the half-open window `[c, e)`. -/
theorem mem_monthHours_bounds {c e s : Nat} (h : s ∈ monthHours c e) :
    c ≤ s ∧ s < e := by
  rw [mem_monthHours] at h
  obtain ⟨k, hk, rfl⟩ := h
  omega

/-- The number of generated buckets is `⌈(e - c)/60⌉`. -/
theorem length_monthHours (c e : Nat) :
    (monthHours c e).length = (e - c + 59) / 60 := by
  rw [monthHours_eq_range, List.length_map, List.length_range]

/-- Line 65–68 filter: a record is selected for the hour starting at
`hourStart` iff it is in the table and satisfies the open-interval overlap
test. -/
theorem mem_activeRecordsFor {hourStart : Nat} {records : List ActivityRecord}
    {r : ActivityRecord} :
    r ∈ activeRecordsFor hourStart records ↔
      r ∈ records ∧ r.startTime < hourStart + 60 ∧ hourStart < r.endTime := by
  simp [activeRecordsFor, List.mem_filter]

/-- A left fold with `min` never exceeds its initial accumulator. -/
theorem foldlMin_le_init (l : List Nat) (a : Nat) : l.foldl min a ≤ a := by
  induction l generalizing a with
  | nil => simp
  | cons x xs ih =>
    simpa using Nat.le_trans (ih (min a x)) (Nat.min_le_left a x)

/-- A left fold with `min` is a lower bound of the list. -/
theorem foldlMin_le_mem (l : List Nat) (a : Nat) {x : Nat} (hx : x ∈ l) :
    l.foldl min a ≤ x := by
  induction l generalizing a with
  | nil => cases hx
  | cons y ys ih =>
    rcases List.mem_cons.mp hx with rfl | h
    · simpa using Nat.le_trans (foldlMin_le_init ys (min a x)) (Nat.min_le_right a x)
    · simpa using ih (min a y) h

/-- A left fold with `min` is attained: it is the accumulator or a member. -/
theorem foldlMin_attained (l : List Nat) (a : Nat) :
    l.foldl min a = a ∨ l.foldl min a ∈ l := by
  induction l generalizing a with
  | nil => left; rfl
  | cons x xs ih =>
    simp only [List.foldl_cons]
    rcases ih (min a x) with h | h
    · rcases Nat.le_total a x with hax | hxa
      · left; rw [h, Nat.min_eq_left hax]
      · right; rw [h, Nat.min_eq_right hxa]; exact List.mem_cons_self x xs
    · right; exact List.mem_cons_of_mem x h

/-- A left fold with `max` is at least its initial accumulator. -/
theorem foldlMax_ge_init (l : List Nat) (a : Nat) : a ≤ l.foldl max a := by
  induction l generalizing a with
  | nil => simp
  | cons x xs ih =>
    simpa using Nat.le_trans (Nat.le_max_left a x) (ih (max a x))

/-- A left fold with `max` is an upper bound of the list. -/
theorem foldlMax_ge_mem (l : List Nat) (a : Nat) {x : Nat} (hx : x ∈ l) :
    x ≤ l.foldl max a := by
  induction l generalizing a with
  | nil => cases hx
  | cons y ys ih =>
    rcases List.mem_cons.mp hx with rfl | h
    · simpa using Nat.le_trans (Nat.le_max_right a x) (foldlMax_ge_init ys (max a x))
    · simpa using ih (max a y) h

/-- A left fold with `max` is attained: it is the accumulator or a member. -/
theorem foldlMax_attained (l : List Nat) (a : Nat) :
    l.foldl max a = a ∨ l.foldl max a ∈ l := by
  induction l generalizing a with
  | nil => left; rfl
  | cons x xs ih =>
    simp only [List.foldl_cons]
    rcases ih (max a x) with h | h
    · rcases Nat.le_total a x with hax | hxa
      · right; rw [h, Nat.max_eq_right hax]; exact List.mem_cons_self x xs
      · left; rw [h, Nat.max_eq_left hxa]
    · right; exact List.mem_cons_of_mem x h

/-- Deduplication only drops rows: every surviving row was in the input. -/
theorem mem_of_mem_dedupGo :
    ∀ (l : List ActivityRecord) (seen : List String) (r : ActivityRecord),
      r ∈ dedupGo seen l → r ∈ l := by
  intro l
  induction l with
  | nil => intro seen r h; simp [dedupGo] at h
  | cons x xs ih =>
    intro seen r h
    rw [dedupGo] at h
    by_cases hx : x.hostName ∈ seen
    · rw [if_pos hx] at h
      exact List.mem_cons_of_mem x (ih seen r h)
    · rw [if_neg hx] at h
      rcases List.mem_cons.mp h with rfl | h2
      · exact List.mem_cons_self r xs
      · exact List.mem_cons_of_mem x (ih (x.hostName :: seen) r h2)

/-- A surviving row's hostname was not among the already-seen ones. -/
theorem hostName_not_seen_of_mem_dedupGo :
    ∀ (l : List ActivityRecord) (seen : List String) (r : ActivityRecord),
      r ∈ dedupGo seen l → r.hostName ∉ seen := by
  intro l
  induction l with
  | nil => intro seen r h; simp [dedupGo] at h
  | cons x xs ih =>
    intro seen r h
    rw [dedupGo] at h
    by_cases hx : x.hostName ∈ seen
    · rw [if_pos hx] at h
      exact ih seen r h
    · rw [if_neg hx] at h
      rcases List.mem_cons.mp h with rfl | h2
      · exact hx
      · intro hmem
        exact ih (x.hostName :: seen) r h2 (List.mem_cons_of_mem _ hmem)

/-- After `drop_duplicates(subset=['hostName'])` the hostnames are pairwise
distinct. -/
theorem nodup_hostNames_dedupGo :
    ∀ (l : List ActivityRecord) (seen : List String),
      ((dedupGo seen l).map (fun r => r.hostName)).Nodup := by
  intro l
  induction l with
  | nil => intro seen; simp [dedupGo]
  | cons x xs ih =>
    intro seen
    rw [dedupGo]
    by_cases hx : x.hostName ∈ seen
    · rw [if_pos hx]; exact ih seen
    · rw [if_neg hx]
      simp only [List.map_cons, List.nodup_cons]
      refine ⟨?_, ih (x.hostName :: seen)⟩
      intro hmem
      obtain ⟨r, hr, heq⟩ := List.mem_map.mp hmem
      exact hostName_not_seen_of_mem_dedupGo xs _ r hr (heq ▸ List.mem_cons_self _ _)

/-- No surviving row carries an already-seen hostname, so filtering the
deduplicated list for such a hostname gives nothing. -/
theorem filter_dedupGo_of_seen :
    ∀ (l : List ActivityRecord) (seen : List String) (x : String), x ∈ seen →
      (dedupGo seen l).filter (fun r => r.hostName == x) = [] := by
  intro l
  induction l with
  | nil => intro seen x _; simp [dedupGo]
  | cons y ys ih =>
    intro seen x hx
    rw [dedupGo]
    by_cases hy : y.hostName ∈ seen
    · rw [if_pos hy]; exact ih seen x hx
    · rw [if_neg hy]
      have hne : (y.hostName == x) = false := by
        simp only [beq_eq_false_iff_ne]
        rintro rfl
        exact hy hx
      rw [List.filter_cons_of_neg (by simp [hne])]
      exact ih (y.hostName :: seen) x (List.mem_cons_of_mem _ hx)

/-- For a not-yet-seen hostname, deduplication keeps exactly the
first-encountered row of that hostname. -/
theorem filter_dedupGo_of_not_seen :
    ∀ (l : List ActivityRecord) (seen : List String) (x : String), x ∉ seen →
      (dedupGo seen l).filter (fun r => r.hostName == x)
        = (l.find? (fun r => r.hostName == x)).toList := by
  intro l
  induction l with
  | nil => intro seen x _; simp [dedupGo]
  | cons y ys ih =>
    intro seen x hx
    rw [dedupGo]
    by_cases hy : y.hostName ∈ seen
    · rw [if_pos hy]
      have hne : (y.hostName == x) = false := by
        simp only [beq_eq_false_iff_ne]
        rintro rfl
        exact hx hy
      rw [List.find?_cons_of_neg _ (by simp [hne])]
      exact ih seen x hx
    · rw [if_neg hy]
      by_cases hxy : y.hostName = x
      · have hbe : (y.hostName == x) = true := by simp [hxy]
        rw [List.filter_cons_of_pos (by simp [hbe]), List.find?_cons_of_pos _ (by simp [hbe])]
        rw [filter_dedupGo_of_seen ys (y.hostName :: seen) x (hxy ▸ List.mem_cons_self _ _)]
        rfl
      · have hne : (y.hostName == x) = false := by simp [hxy]
        rw [List.filter_cons_of_neg (by simp [hne]), List.find?_cons_of_neg _ (by simp [hne])]
        refine ih (y.hostName :: seen) x ?_
        intro hmem
        rcases List.mem_cons.mp hmem with h | h
        · exact hxy h.symm
        · exact hx h

/-- Adding a fresh key to the `activehosts` dict appends it at the end. -/
theorem dictAdd_of_fresh_key :
    ∀ (m : List (String × Rat)) (h : String) (c : Rat),
      (∀ p ∈ m, p.1 ≠ h) → dictAdd m h c = m ++ [(h, c)] := by
  intro m
  induction m with
  | nil => intro h c _; rfl
  | cons p rest ih =>
    intro h c hfresh
    obtain ⟨k, v⟩ := p
    rw [dictAdd, if_neg (hfresh (k, v) (List.mem_cons_self _ _))]
    rw [ih h c (fun q hq => hfresh q (List.mem_cons_of_mem _ hq))]
    rfl

/-- Folding records with pairwise-distinct hostnames into the dict just
appends one `(hostname, int(cores))` pair per record, in order. -/
theorem foldl_dictAdd_eq_append :
    ∀ (l : List ActivityRecord) (m : List (String × Rat)),
      ((l.map (fun r => r.hostName)).Nodup) →
      (∀ r ∈ l, ∀ p ∈ m, p.1 ≠ r.hostName) →
      l.foldl (fun m r => dictAdd m r.hostName ((pyInt r.hostBillableCores : Int) : Rat)) m
        = m ++ l.map (fun r => (r.hostName, ((pyInt r.hostBillableCores : Int) : Rat))) := by
  intro l
  induction l with
  | nil => intro m _ _; simp
  | cons r rs ih =>
    intro m hnd hdisj
    rw [List.map_cons, List.nodup_cons] at hnd
    obtain ⟨hnotin, hndtail⟩ := hnd
    simp only [List.foldl_cons, List.map_cons]
    rw [dictAdd_of_fresh_key m _ _ (fun p hp => hdisj r (List.mem_cons_self _ _) p hp)]
    rw [ih (m ++ [(r.hostName, ((pyInt r.hostBillableCores : Int) : Rat))]) hndtail ?_]
    · simp
    · intro s hs p hp
      rcases List.mem_append.mp hp with hpm | hpsingle
      · exact hdisj s (List.mem_cons_of_mem _ hs) p hpm
      · have hps : p = (r.hostName, ((pyInt r.hostBillableCores : Int) : Rat)) := by
          simpa using hpsingle
        rw [hps]
        intro heq
        exact hnotin (List.mem_map.mpr ⟨s, hs, by simpa using heq.symm⟩)

/-- For a hostname-deduplicated record list, `activehosts` is exactly one
`(hostname, int(cores))` entry per record, in first-seen order. -/
theorem buildHosts_eq_map {l : List ActivityRecord}
    (hnd : (l.map (fun r => r.hostName)).Nodup) :
    buildHosts l = l.map (fun r => (r.hostName, ((pyInt r.hostBillableCores : Int) : Rat))) := by
  unfold buildHosts
  rw [foldl_dictAdd_eq_append l [] hnd (by simp)]
  rfl

/-- `int(...)` of a value that is already an integer is that integer. -/
theorem pyInt_intCast (n : Int) : pyInt ((n : Int) : Rat) = n := by
  unfold pyInt
  rw [Rat.intCast_num, Rat.intCast_den]
  simp

/-- `int(...)` on a nonnegative value is the floor. -/
theorem pyInt_eq_floor_of_nonneg {q : Rat} (h : 0 ≤ q) : pyInt q = ⌊q⌋ := by
  unfold pyInt
  rw [Rat.floor_def]
  exact Int.tdiv_eq_ediv (Rat.num_nonneg.mpr h) (Int.natCast_nonneg q.den)

/-- `int(...)` commutes with negation. -/
theorem pyInt_neg (q : Rat) : pyInt (-q) = -pyInt q := by
  unfold pyInt
  rw [Rat.neg_num, Rat.neg_den, Int.neg_tdiv]

/-- Python's `int(...)` truncates toward zero: floor for nonnegative
values, ceiling for negative ones. -/
theorem pyInt_trunc (q : Rat) : pyInt q = if 0 ≤ q then ⌊q⌋ else ⌈q⌉ := by
  by_cases h : 0 ≤ q
  · rw [if_pos h, pyInt_eq_floor_of_nonneg h]
  · rw [if_neg h]
    have h2 : 0 ≤ -q := by
      push_neg at h
      linarith
    have h3 : pyInt (-q) = ⌊-q⌋ := pyInt_eq_floor_of_nonneg h2
    rw [pyInt_neg, Int.floor_neg] at h3
    omega

/-- Summing a list of integer-valued rationals equals the integer sum,
cast. -/
theorem sum_map_intCast (l : List Int) :
    (l.map (fun n => ((n : Int) : Rat))).sum = ((l.sum : Int) : Rat) := by
  induction l with
  | nil => simp
  | cons x xs ih =>
    simp only [List.map_cons, List.sum_cons, ih]
    push_cast
    ring

/-- Top-level form of `nodup_hostNames_dedupGo`. -/
theorem nodup_hostNames_dedupByHost (l : List ActivityRecord) :
    ((dedupByHost l).map (fun r => r.hostName)).Nodup :=
  nodup_hostNames_dedupGo l []

/-- Top-level form of `filter_dedupGo_of_not_seen`: the rows of a given
hostname surviving `drop_duplicates` are exactly the first-encountered
one. -/
theorem filter_dedupByHost (l : List ActivityRecord) (x : String) :
    (dedupByHost l).filter (fun r => r.hostName == x)
      = (l.find? (fun r => r.hostName == x)).toList :=
  filter_dedupGo_of_not_seen l [] x (by simp)

/-- The `hostnames` detail list of an hour is one `(hostname, int(cores))`
pair per deduplicated active record, in first-seen order. -/
theorem hostnames_hourResultFor (records : List ActivityRecord) (hourStart : Nat) :
    (hourResultFor records hourStart).hostnames
      = (dedupByHost (activeRecordsFor hourStart records)).map
          (fun r => (r.hostName, ((pyInt r.hostBillableCores : Int) : Rat))) := by
  show buildHosts (dedupByHost (activeRecordsFor hourStart records)) = _
  exact buildHosts_eq_map (nodup_hostNames_dedupByHost _)

/-- `total_hostnames` counts the deduplicated active records. -/
theorem total_hostnames_hourResultFor (records : List ActivityRecord) (hourStart : Nat) :
    (hourResultFor records hourStart).total_hostnames
      = (dedupByHost (activeRecordsFor hourStart records)).length := by
  show (buildHosts (dedupByHost (activeRecordsFor hourStart records))).length = _
  rw [buildHosts_eq_map (nodup_hostNames_dedupByHost _), List.length_map]

/-- `total_hostBillableCores` is the integer sum of the coerced core counts
of the deduplicated active records. -/
theorem total_cores_hourResultFor (records : List ActivityRecord) (hourStart : Nat) :
    (hourResultFor records hourStart).total_hostBillableCores
      = ((dedupByHost (activeRecordsFor hourStart records)).map
          (fun r => pyInt r.hostBillableCores)).sum := by
  show pyInt (((buildHosts (dedupByHost (activeRecordsFor hourStart records))).map
      Prod.snd).sum) = _
  rw [buildHosts_eq_map (nodup_hostNames_dedupByHost _), List.map_map]
  have hcomp :
      (Prod.snd ∘ fun r : ActivityRecord =>
          (r.hostName, ((pyInt r.hostBillableCores : Int) : Rat)))
        = (fun n : Int => ((n : Int) : Rat))
            ∘ (fun r : ActivityRecord => pyInt r.hostBillableCores) := rfl
  rw [hcomp, ← List.map_map, sum_map_intCast, pyInt_intCast]

/-- Sanity check mirroring the end-to-end scenario of the specification
(§8): records `(h1, 00:30, 02:15, 4)` and `(h2, 01:00, 01:30, 2)` give two
buckets, `[00:30, 01:30)` with both hosts (6 cores) and `[01:30, 02:30)`
with only `h1` (4 cores). -/
example : analyze [⟨"h1", 30, 135, 4⟩, ⟨"h2", 60, 90, 2⟩] =
    [⟨30, 1, 0, 2, 6, [("h1", 4), ("h2", 2)]⟩, ⟨90, 1, 1, 1, 4, [("h1", 4)]⟩] := by
  with_unfolding_all decide

/-- C1: for every hour bucket `[hourStart, hourStart + 1h)` and every
record, the record is selected as active in that bucket iff
`startTime < hourEnd` and `endTime > hourStart`; in particular a record
ending exactly at `hourStart`, or starting exactly at `hourEnd`, is not
active in that bucket. -/
theorem C1_active_selection (records : List ActivityRecord) (hourStart : Nat)
    (r : ActivityRecord) :
    (r ∈ activeRecordsFor hourStart records ↔
      r ∈ records ∧ r.startTime < hourStart + 60 ∧ r.endTime > hourStart)
    ∧ (r.endTime = hourStart → r ∉ activeRecordsFor hourStart records)
    ∧ (r.startTime = hourStart + 60 → r ∉ activeRecordsFor hourStart records) := by
  refine ⟨mem_activeRecordsFor, ?_, ?_⟩
  · intro he hmem
    obtain ⟨-, -, hgt⟩ := mem_activeRecordsFor.mp hmem
    omega
  · intro hs hmem
    obtain ⟨-, hlt, -⟩ := mem_activeRecordsFor.mp hmem
    omega

/-- Witness for C1: the record `[0, 60)` ends exactly at the start of the
bucket `[60, 120)` and is therefore not active in it. -/
theorem C1_active_selection_witness :
    (⟨"h", 0, 60, 1⟩ : ActivityRecord) ∉ activeRecordsFor 60 [⟨"h", 0, 60, 1⟩] :=
  (C1_active_selection [⟨"h", 0, 60, 1⟩] 60 ⟨"h", 0, 60, 1⟩).2.1 rfl

/-- C2 counterexample: a single record spanning 90 minutes yields a window
of one and a half hours; the code produces 2 hour buckets, while
`floor((monthEnd - monthStart) / 1 hour) = 1`. -/
theorem C2_counterexample :
    (analyze [⟨"h1", 0, 90, 4⟩]).length
      ≠ (maxEndList [⟨"h1", 0, 90, 4⟩] - minStartList [⟨"h1", 0, 90, 4⟩]) / 60 := by
  with_unfolding_all decide

/-- C2 (amended): the hour buckets start at `monthStart` and advance by
exactly one hour while the bucket start is strictly below `monthEnd`, so
the number of buckets is `ceil((monthEnd - monthStart) / 1 hour)`: a
trailing fractional hour produces one final bucket rather than none. -/
theorem C2_hour_enumeration (records : List ActivityRecord) (_hne : records ≠ []) :
    monthHours (minStartList records) (maxEndList records)
        = (List.range ((maxEndList records - minStartList records + 59) / 60)).map
            (fun k => minStartList records + 60 * k)
    ∧ (analyze records).length
        = (maxEndList records - minStartList records + 59) / 60 := by
  constructor
  · exact monthHours_eq_range _ _
  · unfold analyze
    rw [List.length_map, length_monthHours]

/-- Witness for C2 (amended), at the 90-minute single-record window: two
buckets, starting at 0 and 60. -/
theorem C2_hour_enumeration_witness :
    monthHours (minStartList [⟨"h1", 0, 90, 4⟩]) (maxEndList [⟨"h1", 0, 90, 4⟩])
        = (List.range ((maxEndList [⟨"h1", 0, 90, 4⟩] - minStartList [⟨"h1", 0, 90, 4⟩] + 59)
            / 60)).map (fun k => minStartList [⟨"h1", 0, 90, 4⟩] + 60 * k)
    ∧ (analyze [⟨"h1", 0, 90, 4⟩]).length
        = (maxEndList [⟨"h1", 0, 90, 4⟩] - minStartList [⟨"h1", 0, 90, 4⟩] + 59) / 60 :=
  C2_hour_enumeration [⟨"h1", 0, 90, 4⟩] (by simp)

/-- C3: for a non-empty record set, `monthStart` is the least `startTime`,
`monthEnd` is the greatest `endTime`, and every produced bucket start lies
in `[monthStart, monthEnd)`. -/
theorem C3_window_bounds (records : List ActivityRecord) (hne : records ≠ []) :
    (∀ r ∈ records, minStartList records ≤ r.startTime)
    ∧ (∃ r ∈ records, r.startTime = minStartList records)
    ∧ (∀ r ∈ records, r.endTime ≤ maxEndList records)
    ∧ (∃ r ∈ records, r.endTime = maxEndList records)
    ∧ (∀ s ∈ monthHours (minStartList records) (maxEndList records),
        minStartList records ≤ s ∧ s < maxEndList records) := by
  obtain ⟨x, xs, rfl⟩ := List.exists_cons_of_ne_nil hne
  simp only [minStartList, maxEndList]
  refine ⟨?_, ?_, ?_, ?_, fun s hs => mem_monthHours_bounds hs⟩
  · intro r hr
    rcases List.mem_cons.mp hr with rfl | h
    · exact foldlMin_le_init _ _
    · exact foldlMin_le_mem _ _ (List.mem_map.mpr ⟨r, h, rfl⟩)
  · rcases foldlMin_attained (xs.map (fun s => s.startTime)) x.startTime with h | h
    · exact ⟨x, List.mem_cons_self _ _, h.symm⟩
    · obtain ⟨r, hr, hrs⟩ := List.mem_map.mp h
      exact ⟨r, List.mem_cons_of_mem _ hr, hrs⟩
  · intro r hr
    rcases List.mem_cons.mp hr with rfl | h
    · exact foldlMax_ge_init _ _
    · exact foldlMax_ge_mem _ _ (List.mem_map.mpr ⟨r, h, rfl⟩)
  · rcases foldlMax_attained (xs.map (fun s => s.endTime)) x.endTime with h | h
    · exact ⟨x, List.mem_cons_self _ _, h.symm⟩
    · obtain ⟨r, hr, hrs⟩ := List.mem_map.mp h
      exact ⟨r, List.mem_cons_of_mem _ hr, hrs⟩

/-- Witness for C3, on the specification's two-record scenario: the window
start bounds the first record's start time from below. -/
theorem C3_window_bounds_witness :
    minStartList [⟨"h1", 30, 135, 4⟩, ⟨"h2", 60, 90, 2⟩] ≤ 30 :=
  (C3_window_bounds [⟨"h1", 30, 135, 4⟩, ⟨"h2", 60, 90, 2⟩] (by simp)).1
    ⟨"h1", 30, 135, 4⟩ (by simp)

/-- C4: when two or more records with the same hostname overlap an hour
bucket, the bucket's result carries exactly one entry for that hostname,
whose billable cores come from the single retained (first-encountered)
record only, not summed across the duplicates. -/
theorem C4_dedup_single_entry (records : List ActivityRecord) (hourStart : Nat)
    (x : String)
    (hdup : 2 ≤ ((activeRecordsFor hourStart records).filter
        (fun r => r.hostName == x)).length) :
    ∃ r, (activeRecordsFor hourStart records).find? (fun s => s.hostName == x) = some r
      ∧ (hourResultFor records hourStart).hostnames.filter (fun p => p.1 == x)
          = [(x, ((pyInt r.hostBillableCores : Int) : Rat))] := by
  have hne : (activeRecordsFor hourStart records).filter (fun r => r.hostName == x) ≠ [] := by
    intro h
    rw [h] at hdup
    simp at hdup
  obtain ⟨r0, hr0⟩ := List.exists_mem_of_ne_nil _ hne
  have hsome : ((activeRecordsFor hourStart records).find? (fun s => s.hostName == x)).isSome :=
    List.find?_isSome.mpr ⟨r0, (List.mem_filter.mp hr0).1, (List.mem_filter.mp hr0).2⟩
  obtain ⟨r, hr⟩ := Option.isSome_iff_exists.mp hsome
  refine ⟨r, hr, ?_⟩
  rw [hostnames_hourResultFor]
  rw [List.filter_map]
  have hcomp :
      ((fun p : String × Rat => p.1 == x)
          ∘ (fun r : ActivityRecord => (r.hostName, ((pyInt r.hostBillableCores : Int) : Rat))))
        = (fun r : ActivityRecord => r.hostName == x) := rfl
  rw [hcomp, filter_dedupByHost, hr]
  have hx : r.hostName = x := by simpa using List.find?_some hr
  simp [hx]

/-- Witness for C4: two rows for hostname `h1` overlap the bucket `[0, 60)`;
the result keeps one entry with the first row's 4 cores (not 11). -/
theorem C4_dedup_single_entry_witness :
    (hourResultFor [⟨"h1", 0, 60, 4⟩, ⟨"h1", 0, 60, 7⟩] 0).hostnames.filter
        (fun p => p.1 == "h1")
      = [("h1", (4 : Rat))] := by
  obtain ⟨r, hfind, hfilter⟩ :=
    C4_dedup_single_entry [⟨"h1", 0, 60, 4⟩, ⟨"h1", 0, 60, 7⟩] 0 "h1"
      (by with_unfolding_all decide)
  have hr : r = ⟨"h1", 0, 60, 4⟩ := by
    have hc : (activeRecordsFor 0 [⟨"h1", 0, 60, 4⟩, ⟨"h1", 0, 60, 7⟩]).find?
        (fun s => s.hostName == "h1") = some ⟨"h1", 0, 60, 4⟩ := by
      with_unfolding_all decide
    rw [hc] at hfind
    exact (Option.some_inj.mp hfind).symm
  rw [hfilter, hr]
  with_unfolding_all decide

/-- C5: the reported `total_hostBillableCores` of an hour is the exact
integer sum of the coerced `hostBillableCores` over the deduplicated active
records, and `total_hostnames` is the number of distinct hostnames among
those records. -/
theorem C5_conservation (records : List ActivityRecord) (hourStart : Nat) :
    (hourResultFor records hourStart).total_hostBillableCores
        = ((dedupByHost (activeRecordsFor hourStart records)).map
            (fun r => pyInt r.hostBillableCores)).sum
    ∧ (hourResultFor records hourStart).total_hostnames
        = ((dedupByHost (activeRecordsFor hourStart records)).map
            (fun r => r.hostName)).dedup.length := by
  refine ⟨total_cores_hourResultFor records hourStart, ?_⟩
  rw [total_hostnames_hourResultFor,
    List.dedup_eq_self.mpr (nodup_hostNames_dedupByHost _), List.length_map]

/-- C6: every entry of an hour's `hostnames` mapping carries the record's
`hostBillableCores` coerced to an integer before accumulation, and the
coercion truncates fractional values toward zero (floor for nonnegative,
ceiling for negative values). -/
theorem C6_truncation (records : List ActivityRecord) (hourStart : Nat) :
    (hourResultFor records hourStart).hostnames
        = (dedupByHost (activeRecordsFor hourStart records)).map
            (fun r => (r.hostName, ((pyInt r.hostBillableCores : Int) : Rat)))
    ∧ ∀ q : Rat, pyInt q = if 0 ≤ q then ⌊q⌋ else ⌈q⌉ :=
  ⟨hostnames_hourResultFor records hourStart, pyInt_trunc⟩

/-- C7: an empty record collection yields an empty result sequence, and
both the detailed and the summary outputs contain no data rows. -/
theorem C7_empty_input :
    analyze [] = []
    ∧ detailedRows (analyze []) = []
    ∧ summaryRows (analyze []) = [] :=
  ⟨rfl, rfl, rfl⟩

/-- The detailed CSV has one row per (hour, hostname-detail) pair: its row
count is the sum, over the hour results, of the per-hour hostname counts. -/
theorem length_detailedRows (results : List HourResult) :
    (detailedRows results).length
      = (results.map (fun hr => hr.hostnames.length)).sum := by
  induction results with
  | nil => rfl
  | cons hd tl ih =>
    simp only [detailedRows, List.flatMap_cons, List.length_append, List.length_map,
      List.map_cons, List.sum_cons] at ih ⊢
    rw [ih]

/-- C8: in the detailed output there is one row per (hour, active hostname)
pair — per hour the hostnames are pairwise distinct and the row count is
the sum of the per-hour host counts — each row's `hostBillableCores` value
is an integer, and `hour_of_day` lies in `0–23`. -/
theorem C8_detailed_output (records : List ActivityRecord) :
    (∀ row ∈ detailedRows (analyze records),
        (∃ n : Int, row.hostBillableCores = ((n : Int) : Rat)) ∧ row.hour_of_day < 24)
    ∧ (∀ hr ∈ analyze records, (hr.hostnames.map Prod.fst).Nodup)
    ∧ (detailedRows (analyze records)).length
        = ((analyze records).map (fun hr => hr.hostnames.length)).sum := by
  refine ⟨?_, ?_, length_detailedRows _⟩
  · intro row hrow
    obtain ⟨hr, hhr, hrowin⟩ := List.mem_flatMap.mp hrow
    obtain ⟨s, hs, rfl⟩ := List.mem_map.mp hhr
    obtain ⟨p, hp, rfl⟩ := List.mem_map.mp hrowin
    constructor
    · rw [hostnames_hourResultFor] at hp
      obtain ⟨r, -, rfl⟩ := List.mem_map.mp hp
      exact ⟨pyInt r.hostBillableCores, rfl⟩
    · show (hourResultFor records s).hour_of_day < 24
      show s / 60 % 24 < 24
      exact Nat.mod_lt _ (by norm_num)
  · intro hr hhr
    obtain ⟨s, -, rfl⟩ := List.mem_map.mp hhr
    rw [hostnames_hourResultFor, List.map_map]
    exact nodup_hostNames_dedupByHost _

/-- Witness for C8 on a one-record input: the single produced detailed row
has an integer core count and an in-range hour of day. -/
theorem C8_detailed_output_witness :
    (∃ n : Int,
        (⟨0, 1, 0, "h1", (5 : Rat)⟩ : DetailedRow).hostBillableCores = ((n : Int) : Rat))
    ∧ (⟨0, 1, 0, "h1", (5 : Rat)⟩ : DetailedRow).hour_of_day < 24 :=
  (C8_detailed_output [⟨"h1", 0, 60, 5⟩]).1 ⟨0, 1, 0, "h1", (5 : Rat)⟩
    (by with_unfolding_all decide)

/-- C9 counterexample: when all three delimiter strategies fail, the code
does not abort with a fatal error — `analyze_vm_activity` catches the
exception and returns normally (`Except.ok`) with an empty result list. -/
theorem C9_counterexample :
    analyzeVmActivity { tabParse := none, spaceParse := none, commaParse := none }
      = Except.ok ⟨true, [], none, none⟩ := rfl

/-- C9 (amended): if the input cannot be parsed under any of the attempted
delimiter strategies (tab, then space, then comma), the error is surfaced
to the operator by printing it, no output file is produced, and the
function returns an empty result list; the run completes normally instead
of aborting. -/
theorem C9_load_failure (a : ParseAttempts)
    (h1 : a.tabParse = none) (h2 : a.spaceParse = none) (h3 : a.commaParse = none) :
    analyzeVmActivity a = Except.ok ⟨true, [], none, none⟩ := by
  unfold analyzeVmActivity readDataset
  rw [h1, h2, h3]

/-- Witness for C9 (amended) at the all-strategies-fail input. -/
theorem C9_load_failure_witness :
    analyzeVmActivity { tabParse := none, spaceParse := none, commaParse := none }
      = Except.ok ⟨true, [], none, none⟩ :=
  C9_load_failure { tabParse := none, spaceParse := none, commaParse := none } rfl rfl rfl

/-- C10: for a record with `startTime < endTime`, the hour buckets in which
it is active form a contiguous run: active in buckets starting at `s₁` and
`s₃` implies active in every bucket starting at `s₂` between them. -/
theorem C10_contiguous_activity (records : List ActivityRecord) (r : ActivityRecord)
    (c e s₁ s₂ s₃ : Nat) (_hse : r.startTime < r.endTime)
    (_h1 : s₁ ∈ monthHours c e) (_h2 : s₂ ∈ monthHours c e) (_h3 : s₃ ∈ monthHours c e)
    (h12 : s₁ ≤ s₂) (h23 : s₂ ≤ s₃)
    (ha : r ∈ activeRecordsFor s₁ records) (hb : r ∈ activeRecordsFor s₃ records) :
    r ∈ activeRecordsFor s₂ records := by
  obtain ⟨hmem, hstart, -⟩ := mem_activeRecordsFor.mp ha
  obtain ⟨-, -, hend⟩ := mem_activeRecordsFor.mp hb
  exact mem_activeRecordsFor.mpr ⟨hmem, by omega, by omega⟩

/-- Witness for C10: a record spanning `[0, 180)` is active in the first
and third buckets of the window, hence in the middle one. -/
theorem C10_contiguous_activity_witness :
    (⟨"h1", 0, 180, 1⟩ : ActivityRecord) ∈ activeRecordsFor 60 [⟨"h1", 0, 180, 1⟩] :=
  C10_contiguous_activity [⟨"h1", 0, 180, 1⟩] ⟨"h1", 0, 180, 1⟩ 0 180 0 60 120
    (by decide) (by decide) (by decide) (by decide) (by decide) (by decide)
    (by with_unfolding_all decide) (by with_unfolding_all decide)
